import Mathlib

/-!
# Verification of the easy_db data-normalization and resilient-write engine

Shallow embedding of `easy_db/util.py` and `easy_db/database.py` (the
type-reconciliation function `clean_data`, the identifier validator
`name_clean`, the pull-result cache and its invalidation, the chunked
retrying batch writer inside `DataBase.append`, and the duplicate
collapser `DataBase.delete_duplicates`), together with theorems settling
the specification's claims about them.

Python `dict`s are modelled as association lists (`List (key × value)`);
raising an exception is modelled as `Option`/`none`; Python `float`s are
modelled by `PFloat` (a rational, or nan, or a signed infinity) so that the
NaN test `not (v <= 0 or v >= 0)` is meaningful.
-/

namespace EasyDB

/-! ## String helpers: Python's `in` (substring), used by `similar_type`,
`name_clean` and `DataBase._clear_pull_cache`. -/

/-- `listStarts pat l` is true when `pat` is an initial segment of `l`.
Helper for the substring test. -/
def listStarts {α : Type} [DecidableEq α] : List α → List α → Bool
  | [], _ => true
  | _ :: _, [] => false
  | p :: ps, x :: xs => decide (p = x) && listStarts ps xs

/-- `listHasSub pat l` is true when `pat` occurs contiguously inside `l`
(Python's `pat in s` on strings, applied to the character lists). -/
def listHasSub {α : Type} [DecidableEq α] (pat : List α) : List α → Bool
  | [] => listStarts pat []
  | x :: xs => listStarts pat (x :: xs) || listHasSub pat xs

/-- Python's substring test `pat in s`. -/
def strContains (s pat : String) : Bool :=
  listHasSub pat.data s.data

/-- Python's `str.lower()` (character-wise, which agrees with it on the
ASCII type names and declared types involved). -/
def strLower (s : String) : String :=
  ⟨s.data.map Char.toLower⟩

/-- Python's `str.upper()` (character-wise). -/
def strUpper (s : String) : String :=
  ⟨s.data.map Char.toUpper⟩

/-- Python's `str.strip()`: drop whitespace from both ends. -/
def strStrip (s : String) : String :=
  ⟨((s.data.dropWhile Char.isWhitespace).reverse.dropWhile Char.isWhitespace).reverse⟩

/-- Replace every occurrence of the character `old` by `new` (the
single-character instances of Python's `str.replace` used by
`util.clean_column_name`). -/
def replaceChar (old new : Char) (s : String) : String :=
  ⟨s.data.map (fun c => if c = old then new else c)⟩

/-! ## `util.type_map` -/

/-- Backend identifier (`DataBase.db_type`); `OTHER` stands for any string
other than `'SQLITE'`/`'ACCESS'` (for which `util.type_map` returns `{}`). -/
inductive DbType : Type
  | SQLITE
  | ACCESS
  | OTHER
deriving DecidableEq

/-- `util.type_map`, restricted to its string keys.  The Python dict also
holds the type objects `float`, `int`, `str`, `datetime` and `None` as keys,
but every lookup performed with a type *name* string (`type(v).__name__`
lowercased, as `clean_data` does) can only hit the string keys, and the
type-object keys carry the same values as their same-named string keys. -/
def type_map : DbType → List (String × String)
  | DbType.ACCESS =>
      [("float", "double"), ("double", "double"), ("float64", "double"),
       ("numpy.float64", "double"), ("int", "integer"), ("integer", "integer"),
       ("str", "varchar(255)"), ("text", "varchar(255)"), ("varchar", "varchar(255)"),
       ("date", "datetime"), ("datetime", "datetime"), ("timestamp", "datetime"),
       ("smallint", "integer"), ("nonetype", "varchar(255)")]
  | DbType.SQLITE =>
      [("float", "REAL"), ("double", "REAL"), ("real", "REAL"),
       ("float64", "REAL"), ("numpy.float64", "REAL"), ("int", "INTEGER"),
       ("integer", "INTEGER"), ("str", "TEXT"), ("text", "TEXT"),
       ("varchar", "TEXT"), ("date", "DATE"), ("datetime", "TIMESTAMP"),
       ("timestamp", "TIMESTAMP"), ("longchar", "TEXT"), ("smallint", "INTEGER"),
       ("nonetype", "TEXT")]
  | DbType.OTHER => []

/-! ## `util.similar_type` -/

/-- The `numeric` lambda inside `util.similar_type`. -/
def numericT (x : String) : Bool :=
  strContains x "int" || strContains x "double" || strContains x "float" || strContains x "real"

/-- The `text` lambda inside `util.similar_type`. -/
def textT (x : String) : Bool :=
  strContains x "text" || strContains x "str" || strContains x "char"

/-- The `time` lambda inside `util.similar_type`. -/
def timeT (x : String) : Bool :=
  strContains x "time" || strContains x "date" || strContains x "real" || strContains x "text"

/-- `util.similar_type`: both arguments are lowercased, then the function
returns true on equality, or when both are numeric-family, both are
text-family, or both are time-family. -/
def similar_type (t1 t2 : String) : Bool :=
  let a := strLower t1
  let b := strLower t2
  a == b || (numericT a && numericT b) || (textT a && textT b) || (timeT a && timeT b)

/-! ## `util.name_clean` -/

/-- The `unallowed_characters` set of `util.name_clean`.  Characters whose
literals the development cannot spell directly are written with
`Char.ofNat` (39 `'`, 34 `"`, 123/125 the curly braces, 92 the backslash,
96 the backquote). -/
def unallowed_characters : List Char :=
  [';', '(', ')', '=', '+', Char.ofNat 39, Char.ofNat 34, '.', '[', ']', ',',
   Char.ofNat 123, Char.ofNat 125, Char.ofNat 92, '/', Char.ofNat 96, '~', '!',
   '@', '#', '$', '%', '^', '&', '*']

/-- `util.name_clean`: reject when any character is in the denylist, or when
the upper-cased name contains `"DROP"`; accept otherwise. -/
def name_clean (name : String) : Bool :=
  if name.data.any (fun c => unallowed_characters.contains c) then false
  else if strContains (strUpper name) "DROP" then false
  else true

/-- `util.clean_column_name`: replace spaces and forward slashes with
underscores (the bookkeeping `print` side effects carry no data). -/
def clean_column_name (c : String) : String :=
  replaceChar '/' '_' (replaceChar ' ' '_' c)

/-! ## The value model -/

/-- Model of a Python `float`: a rational, NaN, or a signed infinity.
Needed because `clean_data` tests NaN via `not (v <= 0 or v >= 0)`. -/
inductive PFloat : Type
  | num (q : ℚ)
  | nan
  | inf
  | ninf
deriving DecidableEq

/-- `f <= 0` on a Python float (false for NaN). -/
def pfLe0 : PFloat → Bool
  | PFloat.num q => decide (q ≤ 0)
  | PFloat.nan => false
  | PFloat.inf => false
  | PFloat.ninf => true

/-- `f >= 0` on a Python float (false for NaN). -/
def pfGe0 : PFloat → Bool
  | PFloat.num q => decide (0 ≤ q)
  | PFloat.nan => false
  | PFloat.inf => true
  | PFloat.ninf => false

/-- A scalar cell value as it can appear in a row dict: `None`, `int`,
`float`, `str`, a `datetime.datetime`, a pandas/numpy `Timestamp`
(carrying its datetime payload), a `bool`, or `bytes`.  The datetime
payload is abstracted to a natural number tag. -/
inductive Value : Type
  | vNone
  | vInt (n : ℤ)
  | vFloat (f : PFloat)
  | vStr (s : String)
  | vDatetime (t : ℕ)
  | vPdTimestamp (t : ℕ)
  | vBool (b : Bool)
  | vBytes
deriving DecidableEq

/-- `type(value).__name__` for each modelled value. -/
def typeNameRaw : Value → String
  | Value.vNone => "NoneType"
  | Value.vInt _ => "int"
  | Value.vFloat _ => "float"
  | Value.vStr _ => "str"
  | Value.vDatetime _ => "datetime"
  | Value.vPdTimestamp _ => "Timestamp"
  | Value.vBool _ => "bool"
  | Value.vBytes => "bytes"

/-- `type(value).__name__.lower()` as computed at the top of the value loop
of `util.clean_data`. -/
def typeName (v : Value) : String :=
  strLower (typeNameRaw v)

/-- Model of Python's builtin `str(value)` for the modelled values.  The
datetime/timestamp renderings abstract the payload; for floats, CPython
prints `nan`, `inf`, `-inf` for the special values. -/
def pyStr : Value → String
  | Value.vNone => "None"
  | Value.vInt n => toString n
  | Value.vFloat (PFloat.num q) => toString q
  | Value.vFloat PFloat.nan => "nan"
  | Value.vFloat PFloat.inf => "inf"
  | Value.vFloat PFloat.ninf => "-inf"
  | Value.vStr s => s
  | Value.vDatetime t => "datetime " ++ toString t
  | Value.vPdTimestamp t => "Timestamp " ++ toString t
  | Value.vBool b => if b then "True" else "False"
  | Value.vBytes => "bytes"

/-- Parse an unsigned decimal mantissa (digits with at most one point);
helper for the model of Python's `float(str)`. -/
def parseMantissa : List Char → Option ℚ
  | cs =>
    let intPart := cs.takeWhile Char.isDigit
    let rest := cs.dropWhile Char.isDigit
    match rest with
    | [] =>
      if intPart.isEmpty then none
      else some ((intPart.foldl (fun acc c => acc * 10 + (c.toNat - 48)) 0 : ℕ) : ℚ)
    | '.' :: frac =>
      if frac.all Char.isDigit ∧ ¬(intPart.isEmpty ∧ frac.isEmpty) then
        some (((intPart.foldl (fun acc c => acc * 10 + (c.toNat - 48)) 0 : ℕ) : ℚ) +
          ((frac.foldl (fun acc c => acc * 10 + (c.toNat - 48)) 0 : ℕ) : ℚ) /
            ((10 : ℚ) ^ frac.length))
      else none
    | _ => none

/-- Model of Python's builtin `float(str)` after stripping: an optional
sign, then either one of the keywords `nan`/`inf`/`infinity`
(case-insensitive) or a decimal literal; `none` models `ValueError`.
(Exponent notation is outside the model; no claim depends on it.) -/
def parsePyFloat (s : String) : Option PFloat :=
  let t := strLower s
  let (sign, body) :=
    match t.data with
    | '-' :: rest => (true, rest)
    | '+' :: rest => (false, rest)
    | l => (false, l)
  if body = "nan".data then some PFloat.nan
  else if body = "inf".data ∨ body = "infinity".data then
    some (if sign then PFloat.ninf else PFloat.inf)
  else
    match parseMantissa body with
    | some q => some (PFloat.num (if sign then -q else q))
    | none => none

/-- Model of Python's builtin `float(value)` as invoked by `clean_data`
(the string operand has already been `.strip()`ped by the caller):
`none` models `ValueError`/`TypeError`, which `clean_data` catches. -/
def pyFloat : Value → Option PFloat
  | Value.vInt n => some (PFloat.num n)
  | Value.vFloat f => some f
  | Value.vStr s => parsePyFloat s
  | Value.vBool b => some (PFloat.num (if b then 1 else 0))
  | Value.vNone => none
  | Value.vDatetime _ => none
  | Value.vPdTimestamp _ => none
  | Value.vBytes => none

/-- `value.strip()` for the string passed to `float` by `clean_data`. -/
def pyStrip (v : Value) : Value :=
  match v with
  | Value.vStr s => Value.vStr (strStrip s)
  | w => w

/-- `value.to_pydatetime()` with the `AttributeError` fallthrough: a
pandas/numpy timestamp converts to its datetime; on anything else the
exception is swallowed and the value stays unchanged. -/
def toPydatetime : Value → Value
  | Value.vPdTimestamp t => Value.vDatetime t
  | v => v

/-! ## `util.clean_data` -/

/-- A row dict: ordered association list from column name to value. -/
abbrev Row : Type := List (String × Value)

/-- A table schema (`columns_and_types`): ordered association list from
column name to declared type string. -/
abbrev Schema : Type := List (String × String)

/-- The default used by `clean_data` for a missing column: `0` when the
declared type is numeric-family, `''` when text-family, `None` otherwise. -/
def defaultFor (ct : String) : Value :=
  if similar_type ct "float" then Value.vInt 0
  else if similar_type ct "str" then Value.vStr ""
  else Value.vNone

/-- Total lookup of a column's declared type; only applied to columns
known to be in the schema. -/
def lookupType (cats : Schema) (c : String) : String :=
  (List.lookup c cats).getD ""

/-- The missing/extra-column correction at the top of the row loop of
`clean_data`.  Faithfully to the source, it fires only when the row's
*size* differs from the number of schema columns (`len(d) != num_col`);
missing columns are appended (in schema order) with `defaultFor` values,
then columns not in the schema are deleted. -/
def fixRowShape (cats : Schema) (row : Row) : Row :=
  let columns := cats.map Prod.fst
  if row.length ≠ columns.length then
    let keys := row.map Prod.fst
    let missing := columns.filter (fun c => ¬ keys.contains c)
    let row1 := row ++ missing.map (fun c => (c, defaultFor (lookupType cats c)))
    row1.filter (fun e => columns.contains e.1)
  else row

/-- `if isinstance(d[col], float) and not (d[col] <= 0 or d[col] >= 0):
d[col] = None` — the final NaN-to-null step on a single value. -/
def nanFix (w : Value) : Value :=
  match w with
  | Value.vFloat f => if !(pfLe0 f || pfGe0 f) then Value.vNone else Value.vFloat f
  | w => w

/-- The body of the per-value loop of `clean_data` for one value `v` in a
column of declared type `ct`: the (ineffective, `==` instead of `=`)
date-string check is a no-op in the source and is omitted; a pandas
timestamp is converted via `to_pydatetime`; `t_map[d_type]` raising
`KeyError` is `none`; otherwise, a value whose mapped type is not
`similar_type` to `ct` is coerced (`float` on the stripped original value
when `ct` is numeric-family, `str(value)` when text-family, `None`
otherwise), and a NaN result is finally replaced by `None`. -/
def processValue (tm : List (String × String)) (ct : String) (v : Value) : Option Value :=
  let dt := typeName v
  let conv := if dt = "timestamp" then toPydatetime v else v
  match List.lookup dt tm with
  | none => none
  | some mapped =>
    let w :=
      if similar_type ct mapped then conv
      else if similar_type ct "float" then
        match pyFloat (pyStrip v) with
        | some f => Value.vFloat f
        | none => Value.vNone
      else if similar_type ct "str" then Value.vStr (pyStr v)
      else Value.vNone
    some (nanFix w)

/-- The per-value loop over one (shape-corrected) row; a column absent from
`columns_and_types` raises `KeyError` (`none`). -/
def cleanRowVals (tm : List (String × String)) (cats : Schema) (row : Row) : Option Row :=
  match row with
  | [] => some []
  | e :: rest =>
    match List.lookup e.1 cats with
    | none => none
    | some ct =>
      match processValue tm ct e.2 with
      | none => none
      | some w =>
        match cleanRowVals tm cats rest with
        | none => none
        | some ws => some ((e.1, w) :: ws)

/-- One iteration of the row loop of `clean_data`. -/
def cleanRow (tm : List (String × String)) (cats : Schema) (row : Row) : Option Row :=
  cleanRowVals tm cats (fixRowShape cats row)

/-- `util.clean_data`: best-effort cleaning of a list of row dicts against
`columns_and_types`; `none` models an uncaught exception escaping the
function (the source mutates rows in place and returns the same list). -/
def clean_data (data : List Row) (cats : Schema) (db : DbType) : Option (List Row) :=
  match data with
  | [] => some []
  | row :: rest =>
    match cleanRow (type_map db) cats row with
    | none => none
    | some r =>
      match clean_data rest cats db with
      | none => none
      | some rs => some (r :: rs)

/-! ## The pull-result cache (`DataBase.pull` / `DataBase._clear_pull_cache`) -/

/-- Lexicographic strict comparison on character lists (Python's `<` on
strings, by code point). -/
def listLtChars : List Char → List Char → Bool
  | [], [] => false
  | [], _ :: _ => true
  | _ :: _, [] => false
  | a :: as, b :: bs => if a < b then true else if b < a then false else listLtChars as bs

/-- `a <= b` on strings, Python-style (not `b < a`). -/
def strLeB (a b : String) : Bool :=
  !(listLtChars b.data a.data)

/-- Insert a string into a sorted list of strings; auxiliary for the
model of Python's `sorted`. -/
def insertSorted (x : String) : List String → List String
  | [] => [x]
  | y :: ys => if strLeB x y then x :: y :: ys else y :: insertSorted x ys

/-- `sorted(columns)` on a list of column-name strings (insertion sort;
Python's `sorted` produces the same ordered list). -/
def sortStrings (l : List String) : List String :=
  l.foldr insertSorted []

/-- `'_'.join(parts)`: Python's separator join. -/
def joinUnd : List String → String
  | [] => ""
  | [c] => c
  | c :: cs => c ++ "_" ++ joinUnd cs

/-- Character-list mirror of `joinUnd`; proof auxiliary for reasoning
about cache-key strings. -/
def joinUndData : List (List Char) → List Char
  | [] => []
  | [c] => c
  | c :: c' :: cs => c ++ '_' :: joinUndData (c' :: cs)

/-- The cache key computed by `DataBase.pull`: the table name itself for a
full pull (`columns='all'`, modelled as `none`), otherwise
`f'{tablename}_' + '_'.join(sorted(columns))`. -/
def requested_data_key (t : String) (cols : Option (List String)) : String :=
  match cols with
  | none => t
  | some cs => t ++ "_" ++ joinUnd (sortStrings cs)

/-- The pull cache `DataBase._pull_cache`: key string to cached row list. -/
abbrev Cache : Type := List (String × List Row)

/-- `DataBase._clear_pull_cache`: pop every cache key that *contains* the
table name as a substring (Python's `if tablename in key`). -/
def clear_pull_cache (t : String) (cache : Cache) : Cache :=
  cache.filter (fun e => !(strContains e.1 t))

/-- The collaborators `DataBase.pull` consults: the memoized table and
query name lists, and the backend query (`util.list_of_dicts_from_query`
through a live cursor) producing the rows of a projection. -/
structure PullEnv : Type where
  tables : List String
  queries : List String
  backend : String → Option (List String) → List Row

/-- The cache-miss body of `DataBase.pull` for `fresh=False`: try the
cache under `requested_data_key`; on a miss, run `util.name_clean` over
`[tablename] + list(columns)` (for `columns='all'`, a Python *string*,
`list` yields the characters `a`, `l`, `l`), abort with `[]` on a dirty
name or an unknown table, otherwise query the backend and store the
result under the key.  Returns (result, new cache, whether the backend
was queried). -/
def pull_step (env : PullEnv) (cache : Cache) (t : String) (cols : Option (List String)) :
    List Row × Cache × Bool :=
  let key := requested_data_key t cols
  match List.lookup key cache with
  | some rows => (rows, cache, false)
  | none =>
    let names := t :: (match cols with
      | none => ["a", "l", "l"]
      | some cs => cs)
    if names.all name_clean then
      if (env.tables ++ env.queries).contains t then
        let rows := env.backend t cols
        (rows, cache ++ [(key, rows)], true)
      else ([], cache, false)
    else ([], cache, false)

/-- `DataBase.pull`: with `fresh=True` the source first calls
`_clear_pull_cache(tablename)` and recurses with `fresh=False` (one
unfolding of that recursion). -/
def pull (env : PullEnv) (cache : Cache) (t : String) (cols : Option (List String))
    (fresh : Bool) : List Row × Cache × Bool :=
  if fresh then pull_step env (clear_pull_cache t cache) t cols
  else pull_step env cache t cols

/-! ## `DataBase.create_table` / the validation-free write path of
`DataBase.append` -/

/-- Whether `DataBase.create_table`, called from `append` (so with
`force_overwrite=False`), reaches `cursor.execute(sql)` on the
`CREATE TABLE` statement: it returns early only when the backend has an
empty type map, when a column's (lowercased) declared type is missing
from the type map (`KeyError`), or when the table already exists.  No
`util.name_clean` check appears anywhere on this path. -/
def create_table_executes (db : DbType) (tables : List String) (t : String)
    (colTypes : List (String × String)) : Bool :=
  if type_map db = [] then false
  else
    let cleaned := colTypes.map (fun e => (clean_column_name e.1, strLower e.2))
    if cleaned.all (fun e => (List.lookup e.2 (type_map db)).isSome) then
      if tables.contains t then false
      else true
    else false

/-- Whether `DataBase.append` reaches a `CREATE TABLE` execution for a
table that is not in `table_names()`: with data present and
`create_table_if_needed` set, it calls
`create_table(tablename, {key: type(value).__name__ for ...})` on the
first row — before `clean_data` and before any insert, and with no
identifier validation. -/
def append_issues_create_sql (db : DbType) (tables : List String) (t : String)
    (createFlag : Bool) (data : List Row) : Bool :=
  if data = [] then false
  else if ¬ tables.contains t ∧ createFlag then
    create_table_executes db tables t
      ((data.headD []).map (fun e => (e.1, typeNameRaw e.2)))
  else false

/-! ## The chunked, retrying insert loop of `DataBase.append` -/

/-- `data[-100:]`: the last `n` elements. -/
def takeLastN {α : Type} (l : List α) (n : ℕ) : List α :=
  l.drop (l.length - n)

/-- `data[:-100]`: everything but the last `n` elements. -/
def dropLastN {α : Type} (l : List α) (n : ℕ) : List α :=
  l.take (l.length - n)

/-- The `while len(data) > 0` insert loop of `DataBase.append`.  `oracle k`
tells whether the `k`-th `cursor.execute*` attempt raises
`sqlite3.OperationalError` (database locked).  On success the chunk
`data[-100:]` is recorded as written and dropped; on a locked error with
`retry_attempts < 5` the counter is bumped, a short randomized sleep
happens (no data effect) and the *same* chunk is retried; otherwise the
loop breaks.  Returns (written chunks, attempted (chunk, locked?) trace,
final `retry_attempts`, whether the loop broke out). -/
def append_loop (oracle : ℕ → Bool) (data : List Row) (tick : ℕ) (retry : ℕ) :
    List (List Row) × List (List Row × Bool) × ℕ × Bool :=
  if h : data = [] then ([], [], retry, false)
  else
    let chunk := takeLastN data 100
    if oracle tick then
      if retry < 5 then
        let r := append_loop oracle data (tick + 1) (retry + 1)
        (r.1, (chunk, true) :: r.2.1, r.2.2.1, r.2.2.2)
      else ([], [(chunk, true)], retry, true)
    else
      let r := append_loop oracle (dropLastN data 100) (tick + 1) retry
      (chunk :: r.1, (chunk, false) :: r.2.1, r.2.2.1, r.2.2.2)
termination_by data.length * 6 + (5 - retry)
decreasing_by
  · omega
  · have hl : 0 < data.length := List.length_pos.mpr h
    simp only [dropLastN, List.length_take]
    omega

/-- Outcome of one `append` insert phase. -/
structure AppendOutcome : Type where
  writes : List (List Row)
  attempts : List (List Row × Bool)
  retries : ℕ
  lockedOut : Bool
  reported : ℕ

/-- Run the insert loop of `DataBase.append` on already-prepared data
(`original_data_len` is captured before the loop and is what the final
`Data inserted … rows` report prints). -/
def append_run (oracle : ℕ → Bool) (data : List Row) : AppendOutcome :=
  let r := append_loop oracle data 0 0
  ⟨r.1, r.2.1, r.2.2.1, r.2.2.2, data.length⟩

/-- The successful-path chunking of the insert loop: last 100, then the
last 100 of the rest, and so on. -/
def chunksOf (l : List Row) : List (List Row) :=
  if h : l = [] then []
  else takeLastN l 100 :: chunksOf (dropLastN l 100)
termination_by l.length
decreasing_by
  have hl : 0 < l.length := List.length_pos.mpr h
  simp only [dropLastN, List.length_take]
  omega

/-- The chunk sizes produced for a given number of rows. -/
def chunkSizes (n : ℕ) : List ℕ :=
  if n = 0 then [] else min 100 n :: chunkSizes (n - 100)
decreasing_by omega

/-! ## `DataBase.delete_duplicates` -/

/-- The grouping tuple `tuple(row[col] for col in grouping_columns)`
(lookup result `none` standing for a missing column). -/
def grouping_key (g : List String) (r : Row) : List (Option Value) :=
  g.map (fun c => List.lookup c r)

/-- The `for row in reversed(data)` walk of the Access branch of
`DataBase.delete_duplicates`: keep the first occurrence of each grouping
key, remembering seen keys; returns (kept rows, seen keys). -/
def dedupWalk (g : List String) : List Row → List (List (Option Value)) →
    List Row × List (List (Option Value))
  | [], seen => ([], seen)
  | r :: rs, seen =>
    let k := grouping_key g r
    if k ∈ seen then dedupWalk g rs seen
    else
      let p := dedupWalk g rs (k :: seen)
      (r :: p.1, p.2)

/-- `DataBase.delete_duplicates` on the table's rows (in insertion order):
default grouping is `sorted(columns_and_types(tablename).keys())`; the
rows are walked most-recent-first, first occurrence per grouping key is
kept, and the un-reversed survivors are rewritten.  (The SQLite branch
instead executes `DELETE … WHERE rowid NOT IN (SELECT max(rowid) …
GROUP BY …)`, whose keep-the-max-rowid-per-group meaning is the
`specKeepMostRecent` function below.) -/
def delete_duplicates (g : Option (List String)) (cats : Schema) (data : List Row) :
    List Row :=
  let cols := match g with
    | none => sortStrings (cats.map Prod.fst)
    | some gc => gc
  (dedupWalk cols data.reverse []).1.reverse

/-- Modelled from the spec: keep, for each grouping-key value, exactly the
most recently appended row (a row survives iff no later row has the same
grouping key), preserving order.  Stated from the spec's words to compare
against the source's `delete_duplicates`. -/
def specKeepMostRecent (g : List String) : List Row → List Row
  | [] => []
  | r :: rs =>
    if grouping_key g r ∈ rs.map (grouping_key g) then specKeepMostRecent g rs
    else r :: specKeepMostRecent g rs

/-- Generalisation of `specKeepMostRecent` with an extra set of banned
grouping keys; proof auxiliary for relating the reversed walk of
`delete_duplicates` to the specification. -/
def specKeepAux (g : List String) (banned : List (List (Option Value))) : List Row → List Row
  | [] => []
  | r :: rs =>
    if grouping_key g r ∈ banned ∨ grouping_key g r ∈ rs.map (grouping_key g)
    then specKeepAux g banned rs
    else r :: specKeepAux g banned rs

/-- Example rows for the `[A, B, C, C]` duplicate-collapse scenario. -/
def exRowA : Row := [("c1", Value.vInt 1), ("c2", Value.vStr "a")]

/-- Second example row. -/
def exRowB : Row := [("c1", Value.vInt 2), ("c2", Value.vStr "b")]

/-- Third example row (appearing twice in the scenario). -/
def exRowC : Row := [("c1", Value.vInt 3), ("c2", Value.vStr "c")]

end EasyDB

namespace EasyDB

lemma takeLastN_length {α : Type} (l : List α) (n : ℕ) :
    (takeLastN l n).length = min n l.length := by
  simp only [takeLastN, List.length_drop]
  omega

lemma dropLastN_length {α : Type} (l : List α) (n : ℕ) :
    (dropLastN l n).length = l.length - n := by
  simp only [dropLastN, List.length_take]
  omega

lemma dropLastN_append_takeLastN {α : Type} (l : List α) (n : ℕ) :
    dropLastN l n ++ takeLastN l n = l := by
  simp [dropLastN, takeLastN, List.take_append_drop]

lemma append_loop_nofail (data : List Row) (tick retry : ℕ) :
    append_loop (fun _ => false) data tick retry =
      (chunksOf data, (chunksOf data).map (fun c => (c, false)), retry, false) := by
  by_cases h : data = []
  · subst h
    rw [append_loop, chunksOf]
    simp
  · rw [append_loop, chunksOf]
    simp only [h, dite_false]
    rw [append_loop_nofail (dropLastN data 100) (tick + 1) retry]
    simp
termination_by data.length
decreasing_by
  rw [dropLastN_length]
  have : 0 < data.length := List.length_pos.mpr h
  omega

lemma chunksOf_map_length (l : List Row) : (chunksOf l).map List.length = chunkSizes l.length := by
  by_cases h : l = []
  · subst h
    rw [chunksOf, chunkSizes]
    simp
  · have h0 : l.length ≠ 0 := by
      have : 0 < l.length := List.length_pos.mpr h
      omega
    rw [chunksOf, chunkSizes]
    simp only [h, dite_false, List.map_cons, takeLastN_length]
    rw [chunksOf_map_length (dropLastN l 100), dropLastN_length, if_neg h0]
termination_by l.length
decreasing_by
  rw [dropLastN_length]
  have : 0 < l.length := List.length_pos.mpr h
  omega

lemma chunksOf_reverse_flatten (l : List Row) : (chunksOf l).reverse.flatten = l := by
  by_cases h : l = []
  · subst h
    rw [chunksOf]
    simp
  · rw [chunksOf]
    simp only [h, dite_false, List.reverse_cons, List.flatten_append]
    rw [chunksOf_reverse_flatten (dropLastN l 100)]
    simp [dropLastN_append_takeLastN]
termination_by l.length
decreasing_by
  rw [dropLastN_length]
  have : 0 < l.length := List.length_pos.mpr h
  omega

lemma chunkSizes_250 : chunkSizes 250 = [100, 100, 50] := by
  rw [chunkSizes]
  norm_num
  rw [chunkSizes]
  norm_num
  rw [chunkSizes]
  norm_num
  rw [chunkSizes]
  norm_num

end EasyDB

namespace EasyDB

/-- Claim C6: appending exactly 250 rows with no failures issues exactly
three chunked write calls of 100, 100 and 50 rows, the chunks partition
the data, and the reported inserted-row count is 250. -/
theorem append_250_rows_three_chunks (data : List Row) (h : data.length = 250) :
    (append_run (fun _ => false) data).writes.map List.length = [100, 100, 50] ∧
    (append_run (fun _ => false) data).writes.reverse.flatten = data ∧
    (append_run (fun _ => false) data).reported = 250 := by
  unfold append_run
  rw [append_loop_nofail]
  refine ⟨?_, ?_, h⟩
  · rw [chunksOf_map_length, h, chunkSizes_250]
  · exact chunksOf_reverse_flatten data

theorem append_250_rows_three_chunks_witness :
    (append_run (fun _ => false) (List.replicate 250 ([] : Row))).writes.map List.length
        = [100, 100, 50] ∧
    (append_run (fun _ => false) (List.replicate 250 ([] : Row))).writes.reverse.flatten
        = List.replicate 250 ([] : Row) ∧
    (append_run (fun _ => false) (List.replicate 250 ([] : Row))).reported = 250 :=
  append_250_rows_three_chunks (List.replicate 250 ([] : Row)) (by rw [List.length_replicate])

lemma append_loop_retry_invariant (oracle : ℕ → Bool) (data : List Row) (tick retry : ℕ)
    (h5 : retry ≤ 5) :
    (append_loop oracle data tick retry).2.2.1 ≤ 5 ∧
    ((append_loop oracle data tick retry).2.2.2 = true →
      (append_loop oracle data tick retry).2.2.1 = 5) := by
  by_cases h : data = []
  · subst h
    rw [append_loop]
    exact ⟨h5, fun hc => by simp at hc⟩
  · rw [append_loop]
    simp only [h, dite_false]
    by_cases ho : oracle tick
    · by_cases hr : retry < 5
      · simp only [ho, if_true, hr]
        exact append_loop_retry_invariant oracle data (tick + 1) (retry + 1) (by omega)
      · have h55 : retry = 5 := by omega
        simp only [ho, if_true, hr, if_false]
        exact ⟨h5, fun _ => h55⟩
    · simp only [ho, Bool.false_eq_true, if_false]
      exact append_loop_retry_invariant oracle (dropLastN data 100) (tick + 1) retry h5
termination_by data.length * 6 + (5 - retry)
decreasing_by
  · omega
  · rw [dropLastN_length]
    have : 0 < data.length := List.length_pos.mpr h
    omega

lemma append_loop_attempts_head (oracle : ℕ → Bool) (data : List Row) (tick retry : ℕ)
    (h : data ≠ []) :
    ((append_loop oracle data tick retry).2.1).head? = some (takeLastN data 100, oracle tick) := by
  rw [append_loop]
  simp only [h, dite_false]
  by_cases ho : oracle tick
  · by_cases hr : retry < 5 <;> simp [ho, hr]
  · simp [ho]

lemma append_loop_attempts_chain (oracle : ℕ → Bool) (data : List Row) (tick retry : ℕ) :
    List.Chain' (fun a b => a.2 = true → b.1 = a.1)
      (append_loop oracle data tick retry).2.1 := by
  by_cases h : data = []
  · subst h
    rw [append_loop]
    simp
  · rw [append_loop]
    simp only [h, dite_false]
    by_cases ho : oracle tick
    · by_cases hr : retry < 5
      · simp only [ho, if_true, hr]
        rw [List.chain'_cons']
        refine ⟨?_, append_loop_attempts_chain oracle data (tick + 1) (retry + 1)⟩
        intro b hb _
        rw [append_loop_attempts_head oracle data (tick + 1) (retry + 1) h] at hb
        simp only [Option.mem_def, Option.some_inj] at hb
        rw [← hb]
      · simp [ho, hr]
    · simp only [ho, Bool.false_eq_true, if_false]
      rw [List.chain'_cons']
      refine ⟨?_, append_loop_attempts_chain oracle (dropLastN data 100) (tick + 1) retry⟩
      intro b _ hcontra
      simp at hcontra
termination_by data.length * 6 + (5 - retry)
decreasing_by
  · omega
  · rw [dropLastN_length]
    have : 0 < data.length := List.length_pos.mpr h
    omega

/-- Claim C10: each locked failure of a chunk write is retried on the same chunk
after a short randomized sleep; the retry counter over the whole append is
capped at 5, and once exhausted the loop breaks and the append still
returns and reports, rather than raising or blocking. -/
theorem append_locked_retry_cap (oracle : ℕ → Bool) (data : List Row) :
    (append_run oracle data).retries ≤ 5 ∧
    ((append_run oracle data).lockedOut = true → (append_run oracle data).retries = 5) ∧
    (append_run oracle data).reported = data.length ∧
    List.Chain' (fun a b => a.2 = true → b.1 = a.1) (append_run oracle data).attempts := by
  unfold append_run
  exact ⟨(append_loop_retry_invariant oracle data 0 0 (by omega)).1,
         (append_loop_retry_invariant oracle data 0 0 (by omega)).2, rfl,
         append_loop_attempts_chain oracle data 0 0⟩

end EasyDB

namespace EasyDB

lemma dedupWalk_append (g : List String) (l1 l2 : List Row) (s : List (List (Option Value))) :
    dedupWalk g (l1 ++ l2) s =
      ((dedupWalk g l1 s).1 ++ (dedupWalk g l2 (dedupWalk g l1 s).2).1,
       (dedupWalk g l2 (dedupWalk g l1 s).2).2) := by
  induction l1 generalizing s with
  | nil => simp [dedupWalk]
  | cons r rs ih =>
    simp only [List.cons_append, dedupWalk]
    by_cases hk : grouping_key g r ∈ s
    · simp only [hk, if_true]
      exact ih s
    · simp only [hk, if_false]
      rw [List.append_eq, ih (grouping_key g r :: s)]
      simp

lemma dedupWalk_seen_mem (g : List String) (l : List Row) (s : List (List (Option Value)))
    (k : List (Option Value)) :
    k ∈ (dedupWalk g l s).2 ↔ k ∈ s ∨ k ∈ l.map (grouping_key g) := by
  induction l generalizing s with
  | nil => simp [dedupWalk]
  | cons r rs ih =>
    simp only [dedupWalk, List.map_cons, List.mem_cons]
    by_cases hk : grouping_key g r ∈ s
    · simp only [hk, if_true]
      rw [ih s]
      constructor
      · tauto
      · rintro (h | h | h)
        · tauto
        · subst h
          tauto
        · tauto
    · simp only [hk, if_false]
      rw [ih (grouping_key g r :: s)]
      simp only [List.mem_cons]
      tauto

lemma dedupWalk_reverse_eq_specKeepAux (g : List String) (l : List Row)
    (s : List (List (Option Value))) :
    ((dedupWalk g l.reverse s).1).reverse = specKeepAux g s l := by
  induction l generalizing s with
  | nil => simp [dedupWalk, specKeepAux]
  | cons r rs ih =>
    rw [List.reverse_cons, dedupWalk_append]
    have hmem : (grouping_key g r ∈ (dedupWalk g rs.reverse s).2) ↔
        (grouping_key g r ∈ s ∨ grouping_key g r ∈ rs.map (grouping_key g)) := by
      rw [dedupWalk_seen_mem]
      simp
    simp only [specKeepAux]
    by_cases hc : grouping_key g r ∈ s ∨ grouping_key g r ∈ rs.map (grouping_key g)
    · have h2 : grouping_key g r ∈ (dedupWalk g rs.reverse s).2 := hmem.mpr hc
      simp only [dedupWalk, h2, if_true, hc]
      simpa using ih s
    · have h2 : grouping_key g r ∉ (dedupWalk g rs.reverse s).2 := fun hx => hc (hmem.mp hx)
      simp only [dedupWalk, h2, if_false, hc]
      simp only [List.reverse_append, List.reverse_cons, List.reverse_nil, List.nil_append]
      rw [ih s]
      simp

lemma specKeepAux_nil (g : List String) (l : List Row) :
    specKeepAux g [] l = specKeepMostRecent g l := by
  induction l with
  | nil => rfl
  | cons r rs ih =>
    simp only [specKeepAux, specKeepMostRecent, List.not_mem_nil, false_or]
    rw [ih]

/-- Claim C8: `delete_duplicates` (default grouping: every column, sorted)
equals the specification function that retains, per grouping key, exactly
the most recently appended row; on `[A, B, C, C]` with `C` an exact
duplicate the table afterwards holds exactly `[A, B, C]`. -/
theorem delete_duplicates_keeps_most_recent :
    (∀ (g : List String) (cats : Schema) (data : List Row),
        delete_duplicates (some g) cats data = specKeepMostRecent g data) ∧
    (∀ (cats : Schema) (data : List Row),
        delete_duplicates none cats data =
          specKeepMostRecent (sortStrings (cats.map Prod.fst)) data) ∧
    delete_duplicates none [("c1", "INTEGER"), ("c2", "TEXT")]
        [exRowA, exRowB, exRowC, exRowC] = [exRowA, exRowB, exRowC] := by
  refine ⟨?_, ?_, by decide⟩
  · intro g cats data
    unfold delete_duplicates
    rw [dedupWalk_reverse_eq_specKeepAux, specKeepAux_nil]
  · intro cats data
    unfold delete_duplicates
    rw [dedupWalk_reverse_eq_specKeepAux, specKeepAux_nil]

end EasyDB

namespace EasyDB

lemma str_data_append (a b : String) : (a ++ b).data = a.data ++ b.data := rfl

lemma joinUnd_data (l : List String) : (joinUnd l).data = joinUndData (l.map String.data) := by
  match l with
  | [] => rfl
  | [c] => rfl
  | c :: c' :: cs =>
    show (c ++ "_" ++ joinUnd (c' :: cs)).data = _
    rw [str_data_append, str_data_append, joinUnd_data (c' :: cs)]
    simp [joinUndData]

lemma listHasSub_single {c : Char} {l : List Char} : listHasSub [c] l = true ↔ c ∈ l := by
  induction l with
  | nil => simp [listHasSub, listStarts]
  | cons x xs ih =>
    simp only [listHasSub, listStarts, List.mem_cons, Bool.or_eq_true, ih]
    constructor
    · rintro (h | h)
      · simp at h
        exact Or.inl h
      · exact Or.inr h
    · rintro (h | h)
      · subst h
        simp
      · exact Or.inr h

lemma strContains_underscore_iff (s : String) :
    strContains s "_" = false ↔ ('_' : Char) ∉ s.data := by
  unfold strContains
  constructor
  · intro h hm
    rw [(listHasSub_single).mpr hm] at h
    exact absurd h (by simp)
  · intro hm
    by_contra hc
    simp only [Bool.not_eq_false] at hc
    exact hm (listHasSub_single.mp hc)

lemma sep_split : ∀ {a b u v : List Char}, ('_' : Char) ∉ a → ('_' : Char) ∉ b →
    a ++ '_' :: u = b ++ '_' :: v → a = b ∧ u = v := by
  intro a
  induction a with
  | nil =>
    intro b u v _ hb h
    cases b with
    | nil => simpa using h
    | cons y ys =>
      simp only [List.nil_append, List.cons_append, List.cons_eq_cons] at h
      have hy : ('_' : Char) ∈ y :: ys := by
        rw [← h.1]
        exact List.mem_cons_self _ _
      exact absurd hy hb
  | cons x xs ih =>
    intro b u v ha hb h
    cases b with
    | nil =>
      simp only [List.cons_append, List.nil_append, List.cons_eq_cons] at h
      have hx : ('_' : Char) ∈ x :: xs := by
        rw [h.1]
        exact List.mem_cons_self _ _
      exact absurd hx ha
    | cons y ys =>
      simp only [List.cons_append, List.cons_eq_cons] at h
      obtain ⟨hxy, hrest⟩ := h
      have hr := ih (fun hm => ha (List.mem_cons_of_mem x hm))
        (fun hm => hb (List.mem_cons_of_mem y hm)) hrest
      exact ⟨by rw [hxy, hr.1], hr.2⟩

lemma joinUndData_ne_nil {c : List Char} {cs : List (List Char)}
    (hc : c ≠ []) : joinUndData (c :: cs) ≠ [] := by
  cases cs with
  | nil => simpa [joinUndData] using hc
  | cons c' cs' =>
    simp only [joinUndData]
    cases c with
    | nil => simp
    | cons x xs => simp

lemma underscore_mem_joinUndData {c c' : List Char} {cs : List (List Char)} :
    ('_' : Char) ∈ joinUndData (c :: c' :: cs) := by
  simp [joinUndData]

lemma joinUndData_inj : ∀ {cs1 cs2 : List (List Char)},
    (∀ l ∈ cs1, ('_' : Char) ∉ l ∧ l ≠ []) → (∀ l ∈ cs2, ('_' : Char) ∉ l ∧ l ≠ []) →
    joinUndData cs1 = joinUndData cs2 → cs1 = cs2 := by
  intro cs1
  induction cs1 with
  | nil =>
    intro cs2 _ h2 h
    match cs2 with
    | [] => rfl
    | c :: cs =>
      cases cs with
      | nil =>
        exact absurd h.symm (by simpa [joinUndData] using (h2 c (by simp)).2)
      | cons c' cs' =>
        exact absurd h.symm (joinUndData_ne_nil
          (fun hc => by simp [joinUndData, hc] at h))
  | cons c1 rest1 ih =>
    intro cs2 h1 h2 h
    match cs2 with
    | [] =>
      exact absurd h (joinUndData_ne_nil (h1 c1 (by simp)).2)
    | c2 :: rest2 =>
      cases rest1 with
      | nil =>
        cases rest2 with
        | nil => simpa [joinUndData] using h
        | cons c2' cs2' =>
          rw [show joinUndData [c1] = c1 from rfl] at h
          exact absurd (h ▸ underscore_mem_joinUndData) (h1 c1 (by simp)).1
      | cons c1' cs1' =>
        cases rest2 with
        | nil =>
          rw [show joinUndData [c2] = c2 from rfl] at h
          exact absurd (h.symm ▸ underscore_mem_joinUndData) (h2 c2 (by simp)).1
        | cons c2' cs2' =>
          simp only [joinUndData] at h
          have hs := sep_split (h1 c1 (by simp)).1 (h2 c2 (by simp)).1 h
          have := ih (fun l hl => h1 l (List.mem_cons_of_mem c1 hl))
            (fun l hl => h2 l (List.mem_cons_of_mem c2 hl)) hs.2
          rw [hs.1, this]

lemma mem_insertSorted {x y : String} {l : List String} :
    y ∈ insertSorted x l ↔ y = x ∨ y ∈ l := by
  induction l with
  | nil => simp [insertSorted]
  | cons z zs ih =>
    simp only [insertSorted]
    by_cases hle : strLeB x z = true
    · rw [if_pos hle]
      simp only [List.mem_cons]
    · rw [if_neg hle]
      simp only [List.mem_cons, ih]
      tauto

lemma mem_sortStrings {y : String} {l : List String} :
    y ∈ sortStrings l ↔ y ∈ l := by
  induction l with
  | nil => simp [sortStrings]
  | cons z zs ih =>
    show y ∈ insertSorted z (sortStrings zs) ↔ _
    rw [mem_insertSorted, ih]
    simp

lemma string_data_injective : Function.Injective String.data := by
  intro a b h
  cases a
  cases b
  congr

/-- Claim C9 (amended): the cache key is the *string* `tablename` (full pull) or
`tablename ++ "_" ++ joined sorted columns`; when no involved name
contains an underscore and all column names are nonempty, this encoding is
injective up to the sorted column tuple, so distinct projections get
distinct cache entries. -/
theorem requested_data_key_injective (t1 t2 : String) (c1 c2 : Option (List String))
    (ht1 : strContains t1 "_" = false) (ht2 : strContains t2 "_" = false)
    (hc1 : ∀ x ∈ c1.getD [], strContains x "_" = false ∧ x ≠ "")
    (hc2 : ∀ x ∈ c2.getD [], strContains x "_" = false ∧ x ≠ "")
    (h : requested_data_key t1 c1 = requested_data_key t2 c2) :
    t1 = t2 ∧ c1.map sortStrings = c2.map sortStrings := by
  have hdata := congrArg String.data h
  match c1, c2 with
  | none, none =>
    exact ⟨h, rfl⟩
  | none, some cs2 =>
    exfalso
    rw [requested_data_key, requested_data_key, str_data_append, str_data_append] at hdata
    have : ('_' : Char) ∈ t1.data := by
      rw [hdata]
      simp [str_data_append]
    exact absurd this ((strContains_underscore_iff t1).mp ht1)
  | some cs1, none =>
    exfalso
    rw [requested_data_key, requested_data_key, str_data_append, str_data_append] at hdata
    have : ('_' : Char) ∈ t2.data := by
      rw [← hdata]
      simp [str_data_append]
    exact absurd this ((strContains_underscore_iff t2).mp ht2)
  | some cs1, some cs2 =>
    rw [requested_data_key, requested_data_key, str_data_append, str_data_append,
      str_data_append, str_data_append] at hdata
    have hdata2 : t1.data ++ '_' :: (joinUnd (sortStrings cs1)).data =
        t2.data ++ '_' :: (joinUnd (sortStrings cs2)).data := by
      simpa using hdata
    have hs := sep_split ((strContains_underscore_iff t1).mp ht1)
      ((strContains_underscore_iff t2).mp ht2) hdata2
    have hteq : t1 = t2 := string_data_injective hs.1
    have hprops1 : ∀ l ∈ (sortStrings cs1).map String.data, ('_' : Char) ∉ l ∧ l ≠ [] := by
      intro l hl
      obtain ⟨x, hx, rfl⟩ := List.mem_map.mp hl
      have hx' := hc1 x (by simpa using mem_sortStrings.mp hx)
      refine ⟨(strContains_underscore_iff x).mp hx'.1, ?_⟩
      intro hnil
      exact hx'.2 (string_data_injective (by simpa using hnil))
    have hprops2 : ∀ l ∈ (sortStrings cs2).map String.data, ('_' : Char) ∉ l ∧ l ≠ [] := by
      intro l hl
      obtain ⟨x, hx, rfl⟩ := List.mem_map.mp hl
      have hx' := hc2 x (by simpa using mem_sortStrings.mp hx)
      refine ⟨(strContains_underscore_iff x).mp hx'.1, ?_⟩
      intro hnil
      exact hx'.2 (string_data_injective (by simpa using hnil))
    have hjoin : (sortStrings cs1).map String.data = (sortStrings cs2).map String.data := by
      apply joinUndData_inj hprops1 hprops2
      rw [← joinUnd_data, ← joinUnd_data, hs.2]
    have : sortStrings cs1 = sortStrings cs2 :=
      List.map_injective_iff.mpr string_data_injective hjoin
    simp [hteq, this]

/-- Claim C9 counterexample: two different projections (different table, and
same table with different column sets) produce the *same* cache key, so
the key is not injective as claimed. -/
theorem requested_data_key_not_injective :
    requested_data_key "t" (some ["a", "b"]) = requested_data_key "t_a" (some ["b"]) ∧
    ("t" : String) ≠ "t_a" ∧
    requested_data_key "t" (some ["a_b"]) = requested_data_key "t" (some ["a", "b"]) ∧
    (["a_b"] : List String) ≠ ["a", "b"] := by
  refine ⟨by decide, by decide, by decide, by decide⟩

theorem requested_data_key_injective_witness :
    ("t" : String) = "t" ∧
    (some ["b", "a"] : Option (List String)).map sortStrings =
      (some ["a", "b"] : Option (List String)).map sortStrings :=
  requested_data_key_injective "t" "t" (some ["b", "a"]) (some ["a", "b"])
    (by decide) (by decide) (by decide) (by decide) (by decide)

lemma listStarts_refl {α : Type} [DecidableEq α] (l : List α) : listStarts l l = true := by
  induction l with
  | nil => rfl
  | cons x xs ih => simp [listStarts, ih]

lemma listStarts_append {α : Type} [DecidableEq α] (p m : List α) :
    listStarts p (p ++ m) = true := by
  induction p with
  | nil => rfl
  | cons x xs ih => simp [listStarts, ih]

lemma strContains_self_left (t rest : String) : strContains (t ++ rest) t = true := by
  unfold strContains
  rw [str_data_append]
  cases hp : t.data ++ rest.data with
  | nil =>
    have : t.data = [] := by
      rcases List.append_eq_nil.mp hp with ⟨h1, _⟩
      exact h1
    simp [listHasSub, this, listStarts]
  | cons x xs =>
    rw [listHasSub, ← hp, listStarts_append]
    simp

lemma strContains_refl (t : String) : strContains t t = true := by
  have := strContains_self_left t ""
  simpa using this

lemma lookup_clear_pull_cache_none (t k : String) (cache : Cache)
    (hk : strContains k t = true) :
    List.lookup k (clear_pull_cache t cache) = none := by
  induction cache with
  | nil => rfl
  | cons e rest ih =>
    unfold clear_pull_cache at ih ⊢
    by_cases hkeep : strContains e.1 t
    · simp only [List.filter_cons, hkeep, Bool.not_true, if_false]
      exact ih
    · simp only [List.filter_cons, hkeep, Bool.not_false, if_true]
      have hne : (k == e.1) = false := by
        rw [beq_eq_false_iff_ne]
        intro hEq
        rw [← hEq] at hkeep
        exact hkeep hk
      rw [List.lookup_cons]
      simp only [hne]
      exact ih

lemma key_contains_table (t : String) (cols : Option (List String)) :
    strContains (requested_data_key t cols) t = true := by
  match cols with
  | none => exact strContains_refl t
  | some cs =>
    show strContains (t ++ "_" ++ joinUnd (sortStrings cs)) t = true
    rw [String.append_assoc]
    exact strContains_self_left t _

/-- Claim C1 (amended): `_clear_pull_cache(T)` evicts exactly the entries whose
key contains `T` as a substring — in particular every key of `T` itself,
so a following fresh `pull` of `T` misses the cache and re-queries the
backend; entries whose keys do not contain `T` survive, but an entry of a
*different* table whose key happens to contain `T` is also evicted. -/
theorem clear_pull_cache_spec (env : PullEnv) (cache : Cache) (t : String)
    (cols : Option (List String))
    (hnames : (t :: (match cols with
      | none => ["a", "l", "l"]
      | some cs => cs)).all name_clean = true)
    (htab : (env.tables ++ env.queries).contains t = true) :
    (∀ e : String × List Row,
        e ∈ clear_pull_cache t cache ↔ e ∈ cache ∧ strContains e.1 t = false) ∧
    (∀ cols2, List.lookup (requested_data_key t cols2) (clear_pull_cache t cache) = none) ∧
    (pull env cache t cols true).2.2 = true := by
  refine ⟨?_, ?_, ?_⟩
  · intro e
    unfold clear_pull_cache
    rw [List.mem_filter]
    simp
  · intro cols2
    exact lookup_clear_pull_cache_none t _ cache (key_contains_table t cols2)
  · unfold pull
    rw [if_pos rfl]
    unfold pull_step
    simp only [lookup_clear_pull_cache_none t _ cache (key_contains_table t cols),
      hnames, htab, if_true]

/-- Claim C1 counterexample: clearing the cache for table `"a"` also evicts the
(full-pull) cache entry of the distinct table `"ab"`, because eviction
tests substring containment on the key. -/
theorem clear_pull_cache_evicts_other_table :
    clear_pull_cache "a" [(requested_data_key "ab" none, ([] : List Row))] = [] ∧
    ("a" : String) ≠ "ab" := by
  exact ⟨by decide, by decide⟩

theorem clear_pull_cache_spec_witness :
    (∀ e : String × List Row,
        e ∈ clear_pull_cache "T" [("T", ([] : List Row))] ↔
          e ∈ [("T", ([] : List Row))] ∧ strContains e.1 "T" = false) ∧
    (∀ cols2, List.lookup (requested_data_key "T" cols2)
        (clear_pull_cache "T" [("T", ([] : List Row))]) = none) ∧
    (pull ⟨["T"], [], fun _ _ => []⟩ [("T", ([] : List Row))] "T" none true).2.2 = true :=
  clear_pull_cache_spec ⟨["T"], [], fun _ _ => []⟩ [("T", ([] : List Row))] "T" none
    (by decide) (by decide)

/-- Claim C4 (amended): on a cache miss, a `pull` against a name rejected by
`name_clean` returns `[]` without touching the cache and without querying
the backend; but `append` runs no name validation at all — with
`create_table_if_needed` (the default) and a table absent from
`table_names()`, it goes on to execute a `CREATE TABLE` statement (and
then inserts) for any name whose first row's types are mappable. -/
theorem invalid_name_pull_empty_append_unguarded (env : PullEnv) (cache : Cache)
    (t : String) (cols : Option (List String)) (hname : name_clean t = false)
    (hmiss : List.lookup (requested_data_key t cols) cache = none)
    (db : DbType) (tables : List String) (t2 : String) (data : List Row)
    (hdb : type_map db ≠ []) (hne : data ≠ []) (ht2 : tables.contains t2 = false)
    (htypes : (((data.headD []).map (fun e => (e.1, typeNameRaw e.2))).map
        (fun e => (clean_column_name e.1, strLower e.2))).all
        (fun e => (List.lookup e.2 (type_map db)).isSome) = true) :
    pull_step env cache t cols = ([], cache, false) ∧
    append_issues_create_sql db tables t2 true data = true := by
  constructor
  · unfold pull_step
    rcases cols with _ | cs
    · simp only [hmiss]
      have hall : (t :: ["a", "l", "l"]).all name_clean = false := by
        simp [List.all_cons, hname]
      rw [hall]
      simp
    · simp only [hmiss]
      have hall : (t :: cs).all name_clean = false := by
        simp [List.all_cons, hname]
      rw [hall]
      simp
  · unfold append_issues_create_sql
    rw [if_neg hne]
    rw [if_pos (show ¬ tables.contains t2 = true ∧ true = true from
      ⟨by simpa using ht2, rfl⟩)]
    unfold create_table_executes
    rw [if_neg hdb, if_pos htypes]
    rw [if_neg (show ¬ tables.contains t2 = true from by simpa using ht2)]

theorem invalid_name_pull_empty_append_unguarded_witness :
    pull_step ⟨[], [], fun _ _ => []⟩ [] "DROP TABLE X;" none = ([], [], false) ∧
    append_issues_create_sql DbType.SQLITE [] "DROP TABLE X;" true
      [[("x", Value.vStr "1")]] = true :=
  invalid_name_pull_empty_append_unguarded ⟨[], [], fun _ _ => []⟩ [] "DROP TABLE X;" none
    (by decide) (by decide) DbType.SQLITE [] "DROP TABLE X;" [[("x", Value.vStr "1")]]
    (by decide) (by decide) (by decide) (by decide)

/-- Claim C4 counterexample: for the rejected name `"DROP TABLE X;"`,
`name_clean` is false, yet `append` (table absent, default
`create_table_if_needed=True`) reaches a `CREATE TABLE` SQL execution —
the claim that no SQL statement is executed is false for the append path. -/
theorem append_executes_sql_for_rejected_name :
    name_clean "DROP TABLE X;" = false ∧
    append_issues_create_sql DbType.SQLITE [] "DROP TABLE X;" true
      [[("x", Value.vStr "1")]] = true := by
  exact ⟨by decide, by decide⟩

lemma forall₂_mem_right {α β : Type} {R : α → β → Prop} {l₁ : List α} {l₂ : List β}
    (h : List.Forall₂ R l₁ l₂) {y : β} (hy : y ∈ l₂) : ∃ x ∈ l₁, R x y := by
  induction h with
  | nil => simp at hy
  | cons hr _ ih =>
    rcases List.mem_cons.mp hy with h1 | h2
    · subst h1
      exact ⟨_, by simp, hr⟩
    · obtain ⟨x, hx, hRx⟩ := ih h2
      exact ⟨x, List.mem_cons_of_mem _ hx, hRx⟩

lemma cleanRowVals_eq_some_iff {tm : List (String × String)} {cats : Schema}
    {row r : Row} :
    cleanRowVals tm cats row = some r ↔
    List.Forall₂ (fun (e e' : String × Value) => e'.1 = e.1 ∧
      ∃ ct, List.lookup e.1 cats = some ct ∧ processValue tm ct e.2 = some e'.2) row r := by
  induction row generalizing r with
  | nil =>
    simp only [cleanRowVals]
    constructor
    · rintro h
      simp only [Option.some_inj] at h
      subst h
      exact List.Forall₂.nil
    · intro h
      cases h
      rfl
  | cons e rest ih =>
    simp only [cleanRowVals]
    constructor
    · intro h
      cases hct : List.lookup e.1 cats with
      | none => rw [hct] at h; exact absurd h (by simp)
      | some ct =>
        simp only [hct] at h
        cases hw : processValue tm ct e.2 with
        | none => rw [hw] at h; exact absurd h (by simp)
        | some w =>
          simp only [hw] at h
          cases hrest : cleanRowVals tm cats rest with
          | none => rw [hrest] at h; exact absurd h (by simp)
          | some ws =>
            simp only [hrest, Option.some_inj] at h
            subst h
            exact List.Forall₂.cons ⟨rfl, ct, hct, hw⟩ (ih.mp hrest)
    · intro h
      cases h with
      | cons hr hrest =>
        obtain ⟨hfst, ct, hct, hw⟩ := hr
        simp only [hct, hw, ih.mpr hrest]
        rw [← hfst]

lemma clean_data_eq_some_iff {data out : List Row} {cats : Schema} {db : DbType} :
    clean_data data cats db = some out ↔
    List.Forall₂ (fun row r => cleanRow (type_map db) cats row = some r) data out := by
  induction data generalizing out with
  | nil =>
    simp only [clean_data]
    constructor
    · rintro h
      simp only [Option.some_inj] at h
      subst h
      exact List.Forall₂.nil
    · intro h
      cases h
      rfl
  | cons row rest ih =>
    simp only [clean_data]
    constructor
    · intro h
      cases hr : cleanRow (type_map db) cats row with
      | none => rw [hr] at h; exact absurd h (by simp)
      | some r =>
        rw [hr] at h
        cases hrest : clean_data rest cats db with
        | none => rw [hrest] at h; exact absurd h (by simp)
        | some rs =>
          rw [hrest] at h
          simp only [Option.some_inj] at h
          subst h
          exact List.Forall₂.cons hr (ih.mp hrest)
    · intro h
      cases h with
      | cons hr hrest =>
        rw [hr, ih.mpr hrest]

lemma nanFix_no_nan {w : Value} {f : PFloat} (h : nanFix w = Value.vFloat f) :
    (pfLe0 f || pfGe0 f) = true := by
  cases w with
  | vFloat g =>
    simp only [nanFix] at h
    by_cases hg : (pfLe0 g || pfGe0 g) = true
    · simp only [hg, Bool.not_true, Bool.false_eq_true, if_false] at h
      injection h with h2
      rw [← h2]
      exact hg
    · have hg' : (pfLe0 g || pfGe0 g) = false := by simpa using hg
      simp [hg'] at h
  | vNone => cases h
  | vInt n => cases h
  | vStr s => cases h
  | vDatetime t => cases h
  | vPdTimestamp t => cases h
  | vBool b => cases h
  | vBytes => cases h

lemma processValue_shape {tm : List (String × String)} {ct : String} {v w : Value}
    (h : processValue tm ct v = some w) : ∃ w0, w = nanFix w0 := by
  simp only [processValue] at h
  cases hdt : List.lookup (typeName v) tm with
  | none => rw [hdt] at h; exact absurd h (by simp)
  | some mapped =>
    rw [hdt] at h
    simp only [Option.some_inj] at h
    exact ⟨_, h.symm⟩

/-- Claim C7 (amended): after reconciliation no value is a NaN float — the final
per-value step replaces a NaN by null.  (A NaN *input* is not always
nulled: when it is stringified for a text-family column it becomes the
string `"nan"`, see the counterexample.) -/
theorem clean_data_no_nan (db : DbType) (cats : Schema) (data out : List Row)
    (h : clean_data data cats db = some out) :
    ∀ r ∈ out, ∀ c f, (c, Value.vFloat f) ∈ r → (pfLe0 f || pfGe0 f) = true := by
  intro r hr c f hcf
  obtain ⟨row, _, hrow⟩ := forall₂_mem_right (clean_data_eq_some_iff.mp h) hr
  unfold cleanRow at hrow
  obtain ⟨e, _, _, ct, _, hw⟩ := forall₂_mem_right (cleanRowVals_eq_some_iff.mp hrow) hcf
  obtain ⟨w0, hw0⟩ := processValue_shape hw
  exact nanFix_no_nan (hw0.symm)

theorem clean_data_no_nan_witness :
    (pfLe0 PFloat.inf || pfGe0 PFloat.inf) = true :=
  clean_data_no_nan DbType.SQLITE [("a", "REAL")] [[("a", Value.vFloat PFloat.inf)]]
    [[("a", Value.vFloat PFloat.inf)]] (by decide) [("a", Value.vFloat PFloat.inf)]
    (by decide) "a" PFloat.inf (by decide)

/-- Claim C7 counterexample: a NaN in a column declared `varchar(255)` is not
similar to the text family's mapped type, is not numeric-coerced, and is
*stringified*: the reconciled value is the string `"nan"`, not null. -/
theorem nan_becomes_string_not_null :
    clean_data [[("a", Value.vFloat PFloat.nan)]] [("a", "varchar(255)")] DbType.SQLITE =
      some [[("a", Value.vStr "nan")]] ∧
    Value.vStr "nan" ≠ Value.vNone := by
  exact ⟨by decide, by decide⟩

/-- Claim C3 (amended): for a value whose runtime type name *is* in the type
map, the per-value reconciliation always completes, and when the declared
column type is neither equivalent to the mapped type nor numeric-family
nor text-family, the value becomes null; but a value whose runtime type
name is missing from the type map (a `bool`, `bytes`, …) raises
`KeyError` and aborts the whole batch (see the counterexample). -/
theorem processValue_mapped_total_or_null (db : DbType) (ct : String) (v : Value)
    (m : String) (hm : List.lookup (typeName v) (type_map db) = some m) :
    (∃ w, processValue (type_map db) ct v = some w) ∧
    (similar_type ct m = false → similar_type ct "float" = false →
      similar_type ct "str" = false →
      processValue (type_map db) ct v = some Value.vNone) := by
  constructor
  · simp only [processValue, hm]
    exact ⟨_, rfl⟩
  · intro h1 h2 h3
    simp only [processValue, hm]
    rw [if_neg (by simp [h1]), if_neg (by simp [h2]), if_neg (by simp [h3])]
    rfl

theorem processValue_mapped_total_or_null_witness :
    (∃ w, processValue (type_map DbType.SQLITE) "blob" (Value.vDatetime 0) = some w) ∧
    (similar_type "blob" "TIMESTAMP" = false → similar_type "blob" "float" = false →
      similar_type "blob" "str" = false →
      processValue (type_map DbType.SQLITE) "blob" (Value.vDatetime 0) =
        some Value.vNone) :=
  processValue_mapped_total_or_null DbType.SQLITE "blob" (Value.vDatetime 0) "TIMESTAMP"
    (by decide)

/-- Claim C3 counterexample: a boolean value's runtime type name `bool` has no
entry in the type map, so `t_map[d_type]` raises `KeyError` and
reconciliation aborts the batch (modelled as `none`) instead of
substituting null and completing. -/
theorem bool_value_aborts_reconciliation :
    clean_data [[("a", Value.vBool true)]] [("a", "INTEGER")] DbType.SQLITE = none := by
  decide

lemma similar_intro_num {ct x : String} (hx : numericT (strLower x) = true)
    (h : numericT (strLower ct) = true) : similar_type ct x = true := by
  simp only [similar_type]
  rw [h, hx]
  simp

lemma similar_intro_text {ct x : String} (hx : textT (strLower x) = true)
    (h : textT (strLower ct) = true) : similar_type ct x = true := by
  simp only [similar_type]
  rw [h, hx]
  simp

lemma similar_float_elim {ct : String} (h : similar_type ct "float" = true) :
    numericT (strLower ct) = true := by
  simp only [similar_type] at h
  rw [show strLower "float" = "float" from by decide,
    show numericT "float" = true from by decide,
    show textT "float" = false from by decide,
    show timeT "float" = false from by decide] at h
  simp only [Bool.and_true, Bool.and_false, Bool.or_false, Bool.or_eq_true,
    beq_iff_eq] at h
  rcases h with h | h
  · rw [h]
    decide
  · exact h

lemma similar_str_elim {ct : String} (h : similar_type ct "str" = true) :
    textT (strLower ct) = true := by
  simp only [similar_type] at h
  rw [show strLower "str" = "str" from by decide,
    show numericT "str" = false from by decide,
    show textT "str" = true from by decide,
    show timeT "str" = false from by decide] at h
  simp only [Bool.and_true, Bool.and_false, Bool.or_false, Bool.or_eq_true,
    beq_iff_eq] at h
  rcases h with h | h
  · rw [h]
    decide
  · exact h

lemma similar_float_to {ct x : String} (hx : numericT (strLower x) = true)
    (h : similar_type ct "float" = true) : similar_type ct x = true :=
  similar_intro_num hx (similar_float_elim h)

lemma similar_str_to {ct x : String} (hx : textT (strLower x) = true)
    (h : similar_type ct "str" = true) : similar_type ct x = true :=
  similar_intro_text hx (similar_str_elim h)

lemma processValue_eval (tm : List (String × String)) (ct : String) (v : Value)
    (mapped : String) (hm : List.lookup (typeName v) tm = some mapped) :
    processValue tm ct v = some (nanFix (
      if similar_type ct mapped then (if typeName v = "timestamp" then toPydatetime v else v)
      else if similar_type ct "float" then
        (match pyFloat (pyStrip v) with
          | some f => Value.vFloat f
          | none => Value.vNone)
      else if similar_type ct "str" then Value.vStr (pyStr v)
      else Value.vNone)) := by
  simp only [processValue, hm]

lemma pv_none_fixed (db : DbType) (hdb : db = DbType.SQLITE ∨ db = DbType.ACCESS)
    (ct : String) :
    processValue (type_map db) ct Value.vNone = some Value.vNone := by
  rcases hdb with rfl | rfl
  · rw [processValue_eval _ _ _ "TEXT" (by decide)]
    rw [show (if typeName Value.vNone = "timestamp" then toPydatetime Value.vNone
      else Value.vNone) = Value.vNone from by decide]
    by_cases h1 : similar_type ct "TEXT" = true
    · rw [if_pos h1]
      rfl
    · rw [if_neg h1]
      by_cases h2 : similar_type ct "float" = true
      · rw [if_pos h2]
        rfl
      · rw [if_neg h2]
        by_cases h3 : similar_type ct "str" = true
        · exact absurd (similar_str_to (by decide) h3) h1
        · rw [if_neg h3]
          rfl
  · rw [processValue_eval _ _ _ "varchar(255)" (by decide)]
    rw [show (if typeName Value.vNone = "timestamp" then toPydatetime Value.vNone
      else Value.vNone) = Value.vNone from by decide]
    by_cases h1 : similar_type ct "varchar(255)" = true
    · rw [if_pos h1]
      rfl
    · rw [if_neg h1]
      by_cases h2 : similar_type ct "float" = true
      · rw [if_pos h2]
        rfl
      · rw [if_neg h2]
        by_cases h3 : similar_type ct "str" = true
        · exact absurd (similar_str_to (by decide) h3) h1
        · rw [if_neg h3]
          rfl

lemma pv_int_fixed (db : DbType) (hdb : db = DbType.SQLITE ∨ db = DbType.ACCESS)
    (ct : String) (n : ℤ) (hf : similar_type ct "float" = true) :
    processValue (type_map db) ct (Value.vInt n) = some (Value.vInt n) := by
  have htn : typeName (Value.vInt n) = "int" := rfl
  rcases hdb with rfl | rfl
  · rw [processValue_eval _ _ _ "INTEGER" (by rw [htn]; decide)]
    rw [if_pos (similar_float_to (by decide) hf), htn]
    rw [if_neg (by decide : ¬ ("int" : String) = "timestamp")]
    rfl
  · rw [processValue_eval _ _ _ "integer" (by rw [htn]; decide)]
    rw [if_pos (similar_float_to (by decide) hf), htn]
    rw [if_neg (by decide : ¬ ("int" : String) = "timestamp")]
    rfl

lemma pv_str_fixed (db : DbType) (hdb : db = DbType.SQLITE ∨ db = DbType.ACCESS)
    (ct : String) (str0 : String) (hs : similar_type ct "str" = true) :
    processValue (type_map db) ct (Value.vStr str0) = some (Value.vStr str0) := by
  have htn : typeName (Value.vStr str0) = "str" := rfl
  rcases hdb with rfl | rfl
  · rw [processValue_eval _ _ _ "TEXT" (by rw [htn]; decide)]
    rw [if_pos (similar_str_to (by decide) hs), htn]
    rw [if_neg (by decide : ¬ ("str" : String) = "timestamp")]
    rfl
  · rw [processValue_eval _ _ _ "varchar(255)" (by rw [htn]; decide)]
    rw [if_pos (similar_str_to (by decide) hs), htn]
    rw [if_neg (by decide : ¬ ("str" : String) = "timestamp")]
    rfl

lemma pf_num_ok (q : ℚ) : (pfLe0 (PFloat.num q) || pfGe0 (PFloat.num q)) = true := by
  rcases le_total q 0 with h | h <;> simp [pfLe0, pfGe0, h]

lemma pv_float_fixed (db : DbType) (hdb : db = DbType.SQLITE ∨ db = DbType.ACCESS)
    (ct : String) (f : PFloat) (hf : similar_type ct "float" = true)
    (hok : (pfLe0 f || pfGe0 f) = true) :
    processValue (type_map db) ct (Value.vFloat f) = some (Value.vFloat f) := by
  have htn : typeName (Value.vFloat f) = "float" := rfl
  have hnan : nanFix (Value.vFloat f) = Value.vFloat f := by
    simp [nanFix, hok]
  rcases hdb with rfl | rfl
  · rw [processValue_eval _ _ _ "REAL" (by rw [htn]; decide)]
    rw [if_pos (similar_float_to (by decide) hf), htn]
    rw [if_neg (by decide : ¬ ("float" : String) = "timestamp"), hnan]
  · rw [processValue_eval _ _ _ "double" (by rw [htn]; decide)]
    rw [if_pos (similar_float_to (by decide) hf), htn]
    rw [if_neg (by decide : ¬ ("float" : String) = "timestamp"), hnan]

lemma pv_datetime_fixed (db : DbType) (ct : String) (t : ℕ) (m : String)
    (hm : List.lookup "datetime" (type_map db) = some m)
    (hsim : similar_type ct m = true) :
    processValue (type_map db) ct (Value.vDatetime t) = some (Value.vDatetime t) := by
  have htn : typeName (Value.vDatetime t) = "datetime" := rfl
  rw [processValue_eval _ _ _ m (by rw [htn]; exact hm)]
  rw [if_pos hsim, htn]
  rw [if_neg (by decide : ¬ ("datetime" : String) = "timestamp")]
  rfl

lemma pv_default_fixed (db : DbType) (hdb : db = DbType.SQLITE ∨ db = DbType.ACCESS)
    (ct : String) :
    processValue (type_map db) ct (defaultFor ct) = some (defaultFor ct) := by
  unfold defaultFor
  by_cases hf : similar_type ct "float" = true
  · rw [if_pos hf]
    exact pv_int_fixed db hdb ct 0 hf
  · rw [if_neg hf]
    by_cases hs : similar_type ct "str" = true
    · rw [if_pos hs]
      exact pv_str_fixed db hdb ct "" hs
    · rw [if_neg hs]
      exact pv_none_fixed db hdb ct

lemma contains_iff_mem {l : List String} {a : String} : l.contains a = true ↔ a ∈ l := by
  induction l with
  | nil => simp
  | cons x xs ih =>
    simp [List.contains_cons, ih, beq_iff_eq]

lemma lookup_some_mem_keys {k : String} {l : List (String × String)} {v : String}
    (h : List.lookup k l = some v) : k ∈ l.map Prod.fst := by
  induction l with
  | nil => simp [List.lookup] at h
  | cons e rest ih =>
    rw [List.lookup_cons] at h
    by_cases hk : (k == e.1) = true
    · simp only [List.map_cons, List.mem_cons]
      exact Or.inl (beq_iff_eq.mp hk)
    · rw [Bool.not_eq_true] at hk
      rw [hk] at h
      exact List.mem_cons_of_mem _ (ih h)

lemma fixRowShape_mem_default (cats : Schema) (row : Row)
    (h : row.length ≠ (cats.map Prod.fst).length) (c : String)
    (hc : c ∈ cats.map Prod.fst) (hnc : c ∉ row.map Prod.fst) :
    (c, defaultFor (lookupType cats c)) ∈ fixRowShape cats row := by
  unfold fixRowShape
  rw [if_pos h]
  rw [List.mem_filter]
  constructor
  · rw [List.mem_append]
    right
    rw [List.mem_map]
    refine ⟨c, ?_, rfl⟩
    rw [List.mem_filter]
    refine ⟨hc, ?_⟩
    simp only [decide_eq_true_eq]
    intro hcon
    exact hnc (contains_iff_mem.mp hcon)
  · exact contains_iff_mem.mpr hc

lemma fixRowShape_keys_sup (cats : Schema) (row : Row)
    (h : row.length ≠ (cats.map Prod.fst).length) (c : String)
    (hc : c ∈ cats.map Prod.fst) :
    c ∈ (fixRowShape cats row).map Prod.fst := by
  by_cases hrc : c ∈ row.map Prod.fst
  · obtain ⟨e, he, hfst⟩ := List.mem_map.mp hrc
    rw [List.mem_map]
    refine ⟨e, ?_, hfst⟩
    unfold fixRowShape
    rw [if_pos h, List.mem_filter]
    exact ⟨List.mem_append_left _ he, contains_iff_mem.mpr (hfst ▸ hc)⟩
  · rw [List.mem_map]
    exact ⟨(c, defaultFor (lookupType cats c)),
      fixRowShape_mem_default cats row h c hc hrc, rfl⟩

lemma fixRowShape_keys_sub (cats : Schema) (row : Row)
    (h : row.length ≠ (cats.map Prod.fst).length) (e : String × Value)
    (he : e ∈ fixRowShape cats row) : e.1 ∈ cats.map Prod.fst := by
  unfold fixRowShape at he
  rw [if_pos h, List.mem_filter] at he
  exact contains_iff_mem.mp he.2

lemma forall₂_keys_eq {tm : List (String × String)} {cats : Schema} {row r : Row}
    (hF : List.Forall₂ (fun (e e' : String × Value) => e'.1 = e.1 ∧
      ∃ ct, List.lookup e.1 cats = some ct ∧ processValue tm ct e.2 = some e'.2) row r) :
    r.map Prod.fst = row.map Prod.fst := by
  induction hF with
  | nil => rfl
  | cons hr _ ih =>
    simp only [List.map_cons, ih, hr.1]

lemma forall₂_mem_left {α β : Type} {R : α → β → Prop} {l₁ : List α} {l₂ : List β}
    (h : List.Forall₂ R l₁ l₂) {x : α} (hx : x ∈ l₁) : ∃ y ∈ l₂, R x y := by
  induction h with
  | nil => simp at hx
  | cons hr _ ih =>
    rcases List.mem_cons.mp hx with h1 | h2
    · subst h1
      exact ⟨_, by simp, hr⟩
    · obtain ⟨y, hy, hRy⟩ := ih h2
      exact ⟨y, List.mem_cons_of_mem _ hy, hRy⟩

/-- Claim C5 (amended): whenever `clean_data` completes, every reconciled row's
key set equals the schema's column set; and a row whose *key count*
differs from the schema's column count (the source tests
`len(d) != num_col`, not key-set inequality) gets each missing column
filled with the type-appropriate default (`0` numeric-family, `''`
text-family, null otherwise — `defaultFor`), a value that survives the
per-value pass.  A row with equal key count but a different key set
instead raises `KeyError` (see the counterexample). -/
theorem clean_data_row_shape (db : DbType) (hdb : db = DbType.SQLITE ∨ db = DbType.ACCESS)
    (cats : Schema) (data out : List Row)
    (hrows : ∀ row ∈ data, (row.map Prod.fst).Nodup)
    (h : clean_data data cats db = some out) :
    (∀ r ∈ out, ∀ c, c ∈ r.map Prod.fst ↔ c ∈ cats.map Prod.fst) ∧
    List.Forall₂ (fun row r => row.length ≠ cats.length →
      ∀ c ∈ cats.map Prod.fst, c ∉ row.map Prod.fst →
        (c, defaultFor (lookupType cats c)) ∈ r) data out := by
  have hF := clean_data_eq_some_iff.mp h
  constructor
  · intro r hr c
    obtain ⟨row, hrowmem, hcr⟩ := forall₂_mem_right hF hr
    unfold cleanRow at hcr
    have hFr := cleanRowVals_eq_some_iff.mp hcr
    have hkeys : r.map Prod.fst = (fixRowShape cats row).map Prod.fst := forall₂_keys_eq hFr
    constructor
    · intro hcr'
      obtain ⟨e', he', hfst⟩ := List.mem_map.mp hcr'
      obtain ⟨e, _, hfst2, ct, hct, _⟩ := forall₂_mem_right hFr he'
      rw [← hfst, hfst2]
      exact lookup_some_mem_keys hct
    · intro hcc
      rw [hkeys]
      by_cases hlen : row.length = (cats.map Prod.fst).length
      · have hfix : fixRowShape cats row = row := by
          unfold fixRowShape
          rw [if_neg (by simpa using hlen)]
        rw [hfix]
        have hsub : row.map Prod.fst ⊆ cats.map Prod.fst := by
          intro x hx
          obtain ⟨e, he, hfst⟩ := List.mem_map.mp hx
          obtain ⟨e', _, _, ct, hct, _⟩ := forall₂_mem_left hFr (hfix ▸ he)
          exact hfst ▸ lookup_some_mem_keys hct
        have hnd := hrows row hrowmem
        have hsp : (row.map Prod.fst).Subperm (cats.map Prod.fst) :=
          hnd.subperm hsub
        have hlen2 : (cats.map Prod.fst).length ≤ (row.map Prod.fst).length := by
          simp [hlen]
        exact ((hsp.perm_of_length_le hlen2).mem_iff).mpr hcc
      · exact fixRowShape_keys_sup cats row hlen c hcc
  · refine List.Forall₂.imp ?_ hF
    intro row r hcr hlen c hc hnc
    unfold cleanRow at hcr
    have hFr := cleanRowVals_eq_some_iff.mp hcr
    have hlen2 : row.length ≠ (cats.map Prod.fst).length := by simpa using hlen
    have hmem : (c, defaultFor (lookupType cats c)) ∈ fixRowShape cats row :=
      fixRowShape_mem_default cats row hlen2 c hc hnc
    obtain ⟨e', he', hfst, ct, hct, hw⟩ := forall₂_mem_left hFr hmem
    have hctv : lookupType cats c = ct := by
      unfold lookupType
      rw [hct]
      rfl
    rw [hctv] at hw
    have hfix := pv_default_fixed db hdb ct
    have he2 : e'.2 = defaultFor ct := by
      have := hw.symm.trans hfix
      exact Option.some_inj.mp this
    have : e' = (c, defaultFor (lookupType cats c)) := by
      rw [hctv]
      exact Prod.ext hfst (by rw [he2])
    rw [← this]
    exact he'

theorem clean_data_row_shape_witness :
    (∀ r ∈ [[("a", Value.vInt 1), ("b", Value.vStr "")]], ∀ c : String,
      c ∈ r.map Prod.fst ↔
        c ∈ ([("a", "INTEGER"), ("b", "TEXT")] : Schema).map Prod.fst) ∧
    List.Forall₂ (fun (row r : Row) =>
      row.length ≠ ([("a", "INTEGER"), ("b", "TEXT")] : Schema).length →
      ∀ c ∈ ([("a", "INTEGER"), ("b", "TEXT")] : Schema).map Prod.fst,
        c ∉ row.map Prod.fst →
        (c, defaultFor (lookupType [("a", "INTEGER"), ("b", "TEXT")] c)) ∈ r)
      [[("a", Value.vInt 1)]] [[("a", Value.vInt 1), ("b", Value.vStr "")]] :=
  clean_data_row_shape DbType.SQLITE (Or.inl rfl) [("a", "INTEGER"), ("b", "TEXT")]
    [[("a", Value.vInt 1)]] [[("a", Value.vInt 1), ("b", Value.vStr "")]]
    (by decide) (by decide)

/-- Claim C5 counterexample: a row whose key *set* differs from the schema's
column set while its key *count* matches (`{a, c}` against schema
`{a, b}`) is not repaired — the shape correction is skipped because
`len(d) == num_col`, and the per-value loop then raises `KeyError` on the
unknown column `c`, aborting reconciliation instead of completing with
the schema's key set. -/
theorem equal_size_key_mismatch_aborts :
    clean_data [[("a", Value.vInt 1), ("c", Value.vInt 2)]]
      [("a", "INTEGER"), ("b", "INTEGER")] DbType.SQLITE = none := by
  decide

lemma processValue_lookup_some {tm : List (String × String)} {ct : String} {v w : Value}
    (h : processValue tm ct v = some w) :
    ∃ m, List.lookup (typeName v) tm = some m := by
  simp only [processValue] at h
  cases hdt : List.lookup (typeName v) tm with
  | none => rw [hdt] at h; exact absurd h (by simp)
  | some m => exact ⟨m, rfl⟩

lemma processValue_idem_core (db : DbType) (hdb : db = DbType.SQLITE ∨ db = DbType.ACCESS)
    (ct : String) (v w : Value)
    (h : processValue (type_map db) ct v = some w) :
    processValue (type_map db) ct w = some w := by
  have h0 := h
  obtain ⟨m, hm⟩ := processValue_lookup_some h
  rw [processValue_eval _ _ _ m hm] at h
  by_cases hsim : similar_type ct m = true
  · rw [if_pos hsim] at h
    by_cases hts : typeName v = "timestamp"
    · rw [if_pos hts] at h
      cases v with
      | vPdTimestamp t =>
        have hcv : toPydatetime (Value.vPdTimestamp t) = Value.vDatetime t := rfl
        rw [hcv] at h
        have hw : w = Value.vDatetime t := by
          have : nanFix (Value.vDatetime t) = Value.vDatetime t := rfl
          rw [this] at h
          exact (Option.some_inj.mp h).symm
        subst hw
        rcases hdb with rfl | rfl
        · have hM : m = "TIMESTAMP" := by
            have hl : List.lookup (typeName (Value.vPdTimestamp t))
                (type_map DbType.SQLITE) = some "TIMESTAMP" := by
              rw [show typeName (Value.vPdTimestamp t) = "timestamp" from rfl]
              decide
            exact Option.some_inj.mp (hm.symm.trans hl)
          subst hM
          exact pv_datetime_fixed DbType.SQLITE ct t "TIMESTAMP" (by decide) hsim
        · have hM : m = "datetime" := by
            have hl : List.lookup (typeName (Value.vPdTimestamp t))
                (type_map DbType.ACCESS) = some "datetime" := by
              rw [show typeName (Value.vPdTimestamp t) = "timestamp" from rfl]
              decide
            exact Option.some_inj.mp (hm.symm.trans hl)
          subst hM
          exact pv_datetime_fixed DbType.ACCESS ct t "datetime" (by decide) hsim
      | vNone => exact absurd hts (by decide)
      | vInt n =>
        exact absurd hts (by rw [show typeName (Value.vInt n) = "int" from rfl]; decide)
      | vFloat g =>
        exact absurd hts (by rw [show typeName (Value.vFloat g) = "float" from rfl]; decide)
      | vStr s =>
        exact absurd hts (by rw [show typeName (Value.vStr s) = "str" from rfl]; decide)
      | vDatetime t =>
        exact absurd hts
          (by rw [show typeName (Value.vDatetime t) = "datetime" from rfl]; decide)
      | vBool b =>
        exact absurd hts (by rw [show typeName (Value.vBool b) = "bool" from rfl]; decide)
      | vBytes => exact absurd hts (by decide)
    · rw [if_neg hts] at h
      cases v with
      | vFloat g =>
        by_cases hok : (pfLe0 g || pfGe0 g) = true
        · have hnf : nanFix (Value.vFloat g) = Value.vFloat g := by
            simp [nanFix, hok]
          rw [hnf] at h
          have hw : w = Value.vFloat g := (Option.some_inj.mp h).symm
          subst hw
          exact h0
        · have hok' : (pfLe0 g || pfGe0 g) = false := by simpa using hok
          have hnf : nanFix (Value.vFloat g) = Value.vNone := by
            simp [nanFix, hok']
          rw [hnf] at h
          have hw : w = Value.vNone := (Option.some_inj.mp h).symm
          subst hw
          exact pv_none_fixed db hdb ct
      | vNone =>
        have hw : w = Value.vNone := (Option.some_inj.mp h).symm
        subst hw
        exact pv_none_fixed db hdb ct
      | vInt n =>
        have hw : w = Value.vInt n := (Option.some_inj.mp h).symm
        subst hw
        exact h0
      | vStr s =>
        have hw : w = Value.vStr s := (Option.some_inj.mp h).symm
        subst hw
        exact h0
      | vDatetime t =>
        have hw : w = Value.vDatetime t := (Option.some_inj.mp h).symm
        subst hw
        exact h0
      | vPdTimestamp t => exact absurd rfl hts
      | vBool b =>
        have hw : w = Value.vBool b := (Option.some_inj.mp h).symm
        subst hw
        exact h0
      | vBytes =>
        have hw : w = Value.vBytes := (Option.some_inj.mp h).symm
        subst hw
        exact h0
  · rw [if_neg hsim] at h
    by_cases hf : similar_type ct "float" = true
    · rw [if_pos hf] at h
      cases hpf : pyFloat (pyStrip v) with
      | none =>
        rw [hpf] at h
        have hw : w = Value.vNone := (Option.some_inj.mp h).symm
        subst hw
        exact pv_none_fixed db hdb ct
      | some g =>
        rw [hpf] at h
        by_cases hok : (pfLe0 g || pfGe0 g) = true
        · have hnf : nanFix (Value.vFloat g) = Value.vFloat g := by
            simp [nanFix, hok]
          rw [hnf] at h
          have hw : w = Value.vFloat g := (Option.some_inj.mp h).symm
          subst hw
          exact pv_float_fixed db hdb ct g hf hok
        · have hok' : (pfLe0 g || pfGe0 g) = false := by simpa using hok
          have hnf : nanFix (Value.vFloat g) = Value.vNone := by
            simp [nanFix, hok']
          rw [hnf] at h
          have hw : w = Value.vNone := (Option.some_inj.mp h).symm
          subst hw
          exact pv_none_fixed db hdb ct
    · rw [if_neg hf] at h
      by_cases hs : similar_type ct "str" = true
      · rw [if_pos hs] at h
        have hw : w = Value.vStr (pyStr v) := (Option.some_inj.mp h).symm
        subst hw
        exact pv_str_fixed db hdb ct (pyStr v) hs
      · rw [if_neg hs] at h
        have hw : w = Value.vNone := (Option.some_inj.mp h).symm
        subst hw
        exact pv_none_fixed db hdb ct

lemma processValue_idem (db : DbType) (ct : String) (v w : Value)
    (h : processValue (type_map db) ct v = some w) :
    processValue (type_map db) ct w = some w := by
  cases db with
  | OTHER =>
    obtain ⟨m, hm⟩ := processValue_lookup_some h
    exact absurd hm (by simp [type_map])
  | SQLITE => exact processValue_idem_core DbType.SQLITE (Or.inl rfl) ct v w h
  | ACCESS => exact processValue_idem_core DbType.ACCESS (Or.inr rfl) ct v w h

lemma forall₂_length_eq {α β : Type} {R : α → β → Prop} {l₁ : List α} {l₂ : List β}
    (h : List.Forall₂ R l₁ l₂) : l₁.length = l₂.length := by
  induction h with
  | nil => rfl
  | cons _ _ ih => simp [ih]

lemma cleanRow_idem (db : DbType) (cats : Schema) (row r : Row)
    (h : cleanRow (type_map db) cats row = some r) :
    cleanRow (type_map db) cats r = some r := by
  unfold cleanRow at h ⊢
  have hFr := cleanRowVals_eq_some_iff.mp h
  have hkeys : r.map Prod.fst = (fixRowShape cats row).map Prod.fst := forall₂_keys_eq hFr
  have hlenr : (fixRowShape cats row).length = r.length := forall₂_length_eq hFr
  have hsub : ∀ e ∈ r, e.1 ∈ cats.map Prod.fst := by
    intro e he
    obtain ⟨e0, he0, hfst, ct, hct, _⟩ := forall₂_mem_right hFr he
    rw [hfst]
    exact lookup_some_mem_keys hct
  have hfixr : fixRowShape cats r = r := by
    by_cases hl : r.length = (cats.map Prod.fst).length
    · unfold fixRowShape
      rw [if_neg (not_not_intro hl)]
    · have hran : row.length ≠ (cats.map Prod.fst).length := by
        intro hrow
        have hfix : fixRowShape cats row = row := by
          unfold fixRowShape
          rw [if_neg (not_not_intro hrow)]
        rw [hfix] at hlenr
        exact hl (hlenr ▸ hrow)
      have hsup : ∀ c ∈ cats.map Prod.fst, c ∈ r.map Prod.fst := by
        intro c hc
        rw [hkeys]
        exact fixRowShape_keys_sup cats row hran c hc
      unfold fixRowShape
      rw [if_pos hl]
      have hmiss : (cats.map Prod.fst).filter
          (fun c => ¬ (r.map Prod.fst).contains c) = [] := by
        rw [List.filter_eq_nil_iff]
        intro c hc
        simp only [decide_eq_true_eq, Decidable.not_not]
        exact contains_iff_mem.mpr (hsup c hc)
      simp only [hmiss, List.map_nil, List.append_nil]
      rw [List.filter_eq_self.mpr]
      intro e he
      exact contains_iff_mem.mpr (hsub e he)
  rw [hfixr]
  apply cleanRowVals_eq_some_iff.mpr
  clear hkeys hlenr hsub hfixr h
  generalize hg : fixRowShape cats row = frow at hFr
  clear hg
  induction hFr with
  | nil => exact List.Forall₂.nil
  | cons hr hF ih =>
    refine List.Forall₂.cons ?_ ih
    obtain ⟨hfst, ct, hct, hw⟩ := hr
    exact ⟨rfl, ct, by rw [hfst]; exact hct, processValue_idem db ct _ _ hw⟩

/-- Claim C2: reconciliation is idempotent — if `clean_data` completes on some
rows, running it again on its own output (same schema, same backend)
returns the rows unchanged. -/
theorem clean_data_idempotent (db : DbType) (cats : Schema) (data out : List Row)
    (h : clean_data data cats db = some out) :
    clean_data out cats db = some out := by
  rw [clean_data_eq_some_iff] at h ⊢
  induction h with
  | nil => exact List.Forall₂.nil
  | cons hr hF ih =>
    exact List.Forall₂.cons (cleanRow_idem db cats _ _ hr) ih

theorem clean_data_idempotent_witness :
    clean_data [[("a", Value.vStr "1"), ("b", Value.vInt 0)]]
      [("a", "TEXT"), ("b", "REAL")] DbType.SQLITE =
      some [[("a", Value.vStr "1"), ("b", Value.vInt 0)]] :=
  clean_data_idempotent DbType.SQLITE [("a", "TEXT"), ("b", "REAL")]
    [[("a", Value.vInt 1)]] [[("a", Value.vStr "1"), ("b", Value.vInt 0)]] (by decide)

end EasyDB
